import Mathlib

/-!
Verification of the PriceChanger v2 row pipeline, match engine and markup logic.

Shallow embedding conventions:
* A spreadsheet cell (`string | number | null | undefined`) is the inductive `Cell`;
  the JavaScript number `NaN` is the separate constructor `Cell.nan`, every other
  JavaScript number is modelled exactly as a rational (`ℚ`).  All arithmetic that the
  verified claims exercise is exact in IEEE doubles, so the rational model is faithful
  on those inputs.
* JavaScript `null` is `Option.none` at positions typed `T | null`, and a fallible
  function (one that can `throw`) returns `Except ε α`.  Error *messages* are modelled
  by the inductive error kinds below: each distinct message template of the source is
  one constructor, and a zod issue list is carried as the ordered list of the failing
  field names (zod reports one issue per failing field, in schema declaration order,
  and the source joins them into a single message).
-/

/-- A spreadsheet cell as decoded from the workbook: `string | number | null | undefined`,
with `NaN` split off from the other numbers. -/
inductive Cell where
  | str (s : String)
  | num (q : ℚ)
  | nan
  | null
  | undef
deriving DecidableEq, Repr

/-- Digit test used by the float-literal grammar. -/
def isDigit (c : Char) : Bool :=
  '0' ≤ c && c ≤ '9'

/-- Numeric value of a digit string (most significant first). -/
def natOfDigits (cs : List Char) : Nat :=
  cs.foldl (fun n c => 10 * n + (c.toNat - 48)) 0

/-- Split a character list at the first exponent marker `e`/`E`:
returns the part before it and, when a marker exists, the part after it. -/
def splitOnExp : List Char → List Char × Option (List Char)
  | [] => ([], none)
  | c :: rest =>
    if c = 'e' || c = 'E' then ([], some rest)
    else
      let r := splitOnExp rest
      (c :: r.1, r.2)

/-- Optional leading sign: returns the sign (as `1` or `-1`) and the remaining characters. -/
def parseSign (cs : List Char) : Int × List Char :=
  match cs with
  | [] => (1, [])
  | c :: r => if c = '+' then (1, r) else if c = '-' then (-1, r) else (1, cs)

/-- Value of an unsigned decimal mantissa: `D+`, `D+ '.' D*` or `'.' D+`;
`none` when the characters are not of that shape. -/
def mantissaVal (cs : List Char) : Option ℚ :=
  let p := cs.span isDigit
  match p.2 with
  | [] => if p.1.isEmpty then none else some (natOfDigits p.1)
  | '.' :: fracPart =>
    if fracPart.all isDigit && (!p.1.isEmpty || !fracPart.isEmpty) then
      some ((natOfDigits p.1 : ℚ) + (natOfDigits fracPart : ℚ) / 10 ^ fracPart.length)
    else none
  | _ :: _ => none

/-- Value of an exponent part (after `e`/`E`): optional sign then `D+`. -/
def expVal (cs : List Char) : Option Int :=
  let p := parseSign cs
  if !p.2.isEmpty && p.2.all isDigit then some (p.1 * (natOfDigits p.2 : Int)) else none

/-- Value of a complete decimal floating-point literal
(`[+-]? mantissa ([eE] [+-]? D+)?`), `none` when the characters are not one.
This is the finite (rational-valued) fragment of the `StrDecimalLiteral` grammar of
JavaScript `parseFloat`; `jsFloatLitVal` below adds the `Infinity` production, and
the agreement conjunct of `C1_amended` (via `parseNumber_eq_jsToFinite`) relates the
two layers. -/
def floatLitVal (cs : List Char) : Option ℚ :=
  let p := parseSign cs
  let me := splitOnExp p.2
  match mantissaVal me.1, me.2 with
  | some mv, none => some ((p.1 : ℚ) * mv)
  | some mv, some ecs =>
    (expVal ecs).map (fun ev => (p.1 : ℚ) * mv * (10 : ℚ) ^ ev)
  | none, _ => none

/-- JavaScript `parseFloat`: the value of the longest prefix of the string that is a
valid decimal literal, `none` (NaN) when no prefix is one.  (Leading whitespace is
irrelevant at every call site: the argument has already had all whitespace removed.) -/
def parseFloatJS (s : String) : Option ℚ :=
  let cs := s.toList
  ((List.range (cs.length + 1)).reverse).findSome? (fun n => floatLitVal (cs.take n))

/-- The character class `\s` of JavaScript regular expressions, which is also the set
removed by `String.prototype.trim()`: tab, LF, VT, FF, CR, space, NBSP, Ogham space
mark, the Unicode space separators U+2000..U+200A, the line and paragraph separators,
narrow no-break space, medium mathematical space, ideographic space, and the
zero-width no-break space.  (Lean's `Char.isWhitespace` covers only space, tab, CR
and LF, so it is not used.) -/
def isJsWhitespace (c : Char) : Bool :=
  c.toNat = 0x9 || c.toNat = 0xa || c.toNat = 0xb || c.toNat = 0xc || c.toNat = 0xd
    || c.toNat = 0x20 || c.toNat = 0xa0 || c.toNat = 0x1680
    || (0x2000 ≤ c.toNat && c.toNat ≤ 0x200a)
    || c.toNat = 0x2028 || c.toNat = 0x2029 || c.toNat = 0x202f || c.toNat = 0x205f
    || c.toNat = 0x3000 || c.toNat = 0xfeff

/-- The character class `[$,\s]` of the source's cleaning regex. -/
def isStrippedChar (c : Char) : Bool :=
  c = '$' || c = ',' || isJsWhitespace c

/-- JavaScript `String.prototype.trim()`: remove every leading and trailing `\s`
character. -/
def jsTrim (s : String) : String :=
  (((s.toList.dropWhile isJsWhitespace).reverse.dropWhile isJsWhitespace).reverse).asString

/-- `value.replace(/[$,\s]/g, '')`: drop every dollar sign, comma and whitespace character. -/
def cleanNumberString (s : String) : String :=
  (s.toList.filter (fun c => !isStrippedChar c)).asString

/-- `parseNumber` of `vendor-processor.ts` / `company-processor.ts` (the two copies are
identical): `null`/`undefined`/`''` give `null`; a number gives itself unless it `isNaN`;
a string is cleaned of `[$,\s]` and handed to `parseFloat`, with `NaN` mapped to `null`.
This is the finite-valued restriction used by the row pipeline, which carries
JavaScript numbers as rationals; `parseNumberJS` below keeps the infinite `parseFloat`
results as well, and the agreement conjunct of `C1_amended` proves the two agree. -/
def parseNumber : Cell → Option ℚ
  | Cell.str s => if s = "" then none else parseFloatJS (cleanNumberString s)
  | Cell.num q => some q
  | Cell.nan => none
  | Cell.null => none
  | Cell.undef => none

/-- A JavaScript number as `parseFloat` can produce it: a finite value (carried
exactly as a rational) or one of the two infinities.  `NaN` stays `none` at the
`Option` layer. -/
inductive JSNum where
  | finite (q : ℚ)
  | posInf
  | negInf
deriving DecidableEq, Repr

/-- The finite part of a `parseFloat` result: an infinite (or absent) value has no
rational image. -/
def jsToFinite : Option JSNum → Option ℚ
  | some (JSNum.finite q) => some q
  | _ => none

/-- Value of a complete `StrDecimalLiteral`, `Infinity` production included:
`[+-]? (Infinity | mantissa ([eE] [+-]? D+)?)`. -/
def jsFloatLitVal (cs : List Char) : Option JSNum :=
  let p := parseSign cs
  if p.2 = "Infinity".toList then
    some (if p.1 = 1 then JSNum.posInf else JSNum.negInf)
  else
    let me := splitOnExp p.2
    match mantissaVal me.1, me.2 with
    | some mv, none => some (JSNum.finite ((p.1 : ℚ) * mv))
    | some mv, some ecs =>
      (expVal ecs).map (fun ev => JSNum.finite ((p.1 : ℚ) * mv * (10 : ℚ) ^ ev))
    | none, _ => none

/-- JavaScript `parseFloat` in full: skip leading whitespace, then take the value of
the longest prefix of the rest that is a valid `StrDecimalLiteral` (decimal or
`Infinity`); `none` (NaN) when no prefix is one. -/
def jsParseFloat (s : String) : Option JSNum :=
  let cs := s.toList.dropWhile isJsWhitespace
  ((List.range (cs.length + 1)).reverse).findSome? (fun n => jsFloatLitVal (cs.take n))

/-- The full embedding of the source's `parseNumber`, keeping infinite `parseFloat`
results (`isNaN(Infinity)` is false, so the source returns them unchanged).
`parseNumber` above is its finite-valued restriction; the agreement conjunct of
`C1_amended` proves `parseNumber c = jsToFinite (parseNumberJS c)` for every cell. -/
def parseNumberJS : Cell → Option JSNum
  | Cell.str s => if s = "" then none else jsParseFloat (cleanNumberString s)
  | Cell.num q => some (JSNum.finite q)
  | Cell.nan => none
  | Cell.null => none
  | Cell.undef => none

/-- `splitOnExp` is the identity (with no exponent part) on a string without `e`/`E`. -/
theorem splitOnExp_of_no_exp (cs : List Char) (h : ∀ c ∈ cs, c ≠ 'e' ∧ c ≠ 'E') :
    splitOnExp cs = (cs, none) := by
  induction cs with
  | nil => rfl
  | cons c tl ih =>
    have hc := h c (List.mem_cons_self c tl)
    have htl := ih (fun x hx => h x (List.mem_cons_of_mem c hx))
    simp [splitOnExp, hc.1, hc.2, htl]

/-- No prefix of `"Infinity"` is a decimal mantissa. -/
theorem mantissaVal_infinity_none (ps : List Char)
    (hps : ps <+: "Infinity".toList) : mantissaVal (splitOnExp ps).1 = none := by
  have hchars : ∀ c ∈ ps, c ≠ 'e' ∧ c ≠ 'E' := by
    intro c hc
    have hmem : c ∈ "Infinity".toList := hps.subset hc
    have hset : ∀ x ∈ "Infinity".toList, x ≠ 'e' ∧ x ≠ 'E' := by decide
    exact hset c hmem
  rw [splitOnExp_of_no_exp ps hchars]
  cases ps with
  | nil => decide
  | cons c tl =>
    have hc : c = 'I' := (List.cons_prefix_cons.mp hps).1
    subst hc
    unfold mantissaVal
    dsimp only
    have hdig : isDigit 'I' = false := by decide
    have hspan : (('I' :: tl).span isDigit) = ([], 'I' :: tl) := by
      simp [List.span, List.span.loop, hdig]
    rw [hspan]
    rfl

/-- Taking a prefix of the input only shortens what follows the optional sign. -/
theorem parseSign_mono (as bs : List Char) (h : as <+: bs) :
    (parseSign as).2 <+: (parseSign bs).2 := by
  cases as with
  | nil => simp [parseSign, List.nil_prefix]
  | cons a as2 =>
    cases bs with
    | nil => exact absurd h (by simp)
    | cons b bs2 =>
      obtain ⟨hab, htl⟩ := List.cons_prefix_cons.mp h
      subst hab
      by_cases h1 : a = '+'
      · simp [parseSign, h1, htl]
      · by_cases h2 : a = '-'
        · simp [parseSign, h1, h2, htl]
        · simpa [parseSign, h1, h2] using h

/-- A string whose part after the optional sign is a prefix of `"Infinity"` is not a
finite decimal literal. -/
theorem floatLitVal_of_sign_tail_infinity (as : List Char)
    (hps : (parseSign as).2 <+: "Infinity".toList) : floatLitVal as = none := by
  have hm := mantissaVal_infinity_none _ hps
  unfold floatLitVal
  dsimp only
  rw [hm]

/-- No prefix of a (signed) `Infinity` literal is a finite decimal literal. -/
theorem floatLitVal_none_of_prefix_infinity (bs as : List Char)
    (hb : (parseSign bs).2 = "Infinity".toList) (hpre : as <+: bs) :
    floatLitVal as = none :=
  floatLitVal_of_sign_tail_infinity as (hb ▸ parseSign_mono as bs hpre)

/-- The full grammar produces a finite value exactly where the finite fragment
produces that value. -/
theorem jsFloatLitVal_finite_iff (cs : List Char) (q : ℚ) :
    jsFloatLitVal cs = some (JSNum.finite q) ↔ floatLitVal cs = some q := by
  by_cases hinf : (parseSign cs).2 = "Infinity".toList
  · rw [floatLitVal_of_sign_tail_infinity cs (by rw [hinf])]
    unfold jsFloatLitVal
    dsimp only
    rw [if_pos hinf]
    constructor
    · intro h
      split at h <;> exact absurd (Option.some.inj h) (by simp)
    · intro h
      exact absurd h (by simp)
  · unfold jsFloatLitVal floatLitVal
    dsimp only
    rw [if_neg hinf]
    cases hm : mantissaVal (splitOnExp (parseSign cs).2).1 with
    | none => simp
    | some mv =>
      cases he : (splitOnExp (parseSign cs).2).2 with
      | none => simp
      | some ecs =>
        cases hev : expVal ecs with
        | none => simp [hev]
        | some ev => simp [hev]

/-- When the full grammar rejects a string, so does the finite fragment. -/
theorem floatLitVal_none_of_js_none (cs : List Char)
    (h : jsFloatLitVal cs = none) : floatLitVal cs = none := by
  cases hf : floatLitVal cs with
  | none => rfl
  | some q =>
    rw [(jsFloatLitVal_finite_iff cs q).2 hf] at h
    exact absurd h (by simp)

/-- An infinite literal value only arises from a (signed) `Infinity` spelling. -/
theorem jsFloatLitVal_inf_shape (cs : List Char)
    (h : jsFloatLitVal cs = some JSNum.posInf ∨ jsFloatLitVal cs = some JSNum.negInf) :
    (parseSign cs).2 = "Infinity".toList := by
  by_contra hinf
  unfold jsFloatLitVal at h
  dsimp only at h
  rw [if_neg hinf] at h
  rcases h with h | h <;>
  · cases hm : mantissaVal (splitOnExp (parseSign cs).2).1 with
    | none => simp [hm] at h
    | some mv =>
      cases he : (splitOnExp (parseSign cs).2).2 with
      | none => simp [hm, he] at h
      | some ecs =>
        cases hev : expVal ecs with
        | none => simp [hm, he, hev] at h
        | some ev => simp [hm, he, hev] at h

/-- In the reversed range list, everything after an occurrence of `n` is below `n`. -/
theorem range_reverse_decomp (N : Nat) (l1 l2 : List Nat) (n : Nat)
    (hl : (List.range (N + 1)).reverse = l1 ++ n :: l2) :
    ∀ m ∈ l2, m < n := by
  have hp : ((List.range (N + 1)).reverse).Pairwise (fun a b => b < a) := by
    rw [List.pairwise_reverse]
    exact List.pairwise_lt_range (N + 1)
  rw [hl] at hp
  have hcons := (List.pairwise_append.mp hp).2.1
  exact fun m hm => List.rel_of_pairwise_cons hcons hm

/-- The longest-valid-prefix search misses exactly when every prefix is invalid. -/
theorem longestPrefixVal_eq_none_iff {β : Type} (g : List Char → Option β)
    (cs : List Char) :
    ((List.range (cs.length + 1)).reverse).findSome? (fun n => g (cs.take n)) = none
      ↔ ∀ n : Nat, g (cs.take n) = none := by
  rw [List.findSome?_eq_none_iff]
  constructor
  · intro h n
    by_cases hn : n ≤ cs.length
    · exact h n (by rw [List.mem_reverse, List.mem_range]; omega)
    · rw [List.take_of_length_le (by omega)]
      have h2 := h cs.length (by rw [List.mem_reverse, List.mem_range]; omega)
      rwa [List.take_length] at h2
  · intro h n _
    exact h n

/-- When the whole string is valid, the longest valid prefix is the string itself. -/
theorem longestPrefixVal_eq_some_of_full {β : Type} (g : List Char → Option β)
    (cs : List Char) (v : β) (h : g cs = some v) :
    ((List.range (cs.length + 1)).reverse).findSome? (fun n => g (cs.take n))
      = some v := by
  have htake : List.take cs.length cs = cs := by simp
  rw [List.range_succ, List.reverse_append]
  simp only [List.reverse_cons, List.reverse_nil, List.nil_append, List.singleton_append,
    List.findSome?_cons, htake, h]

/-- Stripping `[$,\s]` leaves no JavaScript whitespace behind. -/
theorem cleanNumberString_no_ws (s : String) :
    ∀ c ∈ (cleanNumberString s).toList, isJsWhitespace c = false := by
  intro c hc
  unfold cleanNumberString at hc
  rw [List.toList_asString] at hc
  have hmem := List.of_mem_filter hc
  simp only [isStrippedChar, Bool.not_eq_true', Bool.or_eq_false_iff] at hmem
  exact hmem.2

/-- On a whitespace-free string, the pipeline's finite `parseFloat` is exactly the
finite part of the full `parseFloat`: an infinite longest prefix leaves no shorter
finite prefix behind, and finite or failed results agree outright. -/
theorem parseFloat_bridge (t : String)
    (hws : ∀ c ∈ t.toList, isJsWhitespace c = false) :
    parseFloatJS t = jsToFinite (jsParseFloat t) := by
  have hdrop : t.toList.dropWhile isJsWhitespace = t.toList := by
    cases ht : t.toList with
    | nil => rfl
    | cons c tl =>
      rw [List.dropWhile_cons, if_neg]
      simp [hws c (by rw [ht]; exact List.mem_cons_self c tl)]
  unfold parseFloatJS jsParseFloat
  dsimp only
  rw [hdrop]
  cases hjs : ((List.range (t.toList.length + 1)).reverse).findSome?
      (fun n => jsFloatLitVal (t.toList.take n)) with
  | none =>
    rw [List.findSome?_eq_none_iff] at hjs
    have hred : jsToFinite (none : Option JSNum) = none := rfl
    rw [hred, List.findSome?_eq_none_iff]
    exact fun n hn => floatLitVal_none_of_js_none _ (hjs n hn)
  | some v =>
    cases v with
    | finite q =>
      rw [List.findSome?_eq_some_iff] at hjs
      obtain ⟨l1, n, l2, hl, hfn, hnone⟩ := hjs
      have hq : ((List.range (t.toList.length + 1)).reverse).findSome?
          (fun n => floatLitVal (t.toList.take n)) = some q := by
        rw [List.findSome?_eq_some_iff]
        exact ⟨l1, n, l2, hl, (jsFloatLitVal_finite_iff _ _).1 hfn,
          fun x hx => floatLitVal_none_of_js_none _ (hnone x hx)⟩
      rw [hq]
      rfl
    | posInf =>
      rw [List.findSome?_eq_some_iff] at hjs
      obtain ⟨l1, n, l2, hl, hfn, hnone⟩ := hjs
      have hshape := jsFloatLitVal_inf_shape (t.toList.take n) (Or.inl hfn)
      have hnone2 : ((List.range (t.toList.length + 1)).reverse).findSome?
          (fun m => floatLitVal (t.toList.take m)) = none := by
        rw [List.findSome?_eq_none_iff]
        intro m hm
        rw [hl] at hm
        rcases List.mem_append.mp hm with hm1 | hm2
        · exact floatLitVal_none_of_js_none _ (hnone m hm1)
        · rcases List.mem_cons.mp hm2 with rfl | hm3
          · exact floatLitVal_of_sign_tail_infinity _ (by rw [hshape])
          · have hmn : m < n := range_reverse_decomp t.toList.length l1 l2 n hl m hm3
            have hpre : t.toList.take m <+: t.toList.take n := by
              have heq : t.toList.take m = (t.toList.take n).take m := by
                rw [List.take_take]
                congr 1
                omega
              rw [heq]
              exact List.take_prefix m (t.toList.take n)
            exact floatLitVal_none_of_prefix_infinity _ _ hshape hpre
      rw [hnone2]
      rfl
    | negInf =>
      rw [List.findSome?_eq_some_iff] at hjs
      obtain ⟨l1, n, l2, hl, hfn, hnone⟩ := hjs
      have hshape := jsFloatLitVal_inf_shape (t.toList.take n) (Or.inr hfn)
      have hnone2 : ((List.range (t.toList.length + 1)).reverse).findSome?
          (fun m => floatLitVal (t.toList.take m)) = none := by
        rw [List.findSome?_eq_none_iff]
        intro m hm
        rw [hl] at hm
        rcases List.mem_append.mp hm with hm1 | hm2
        · exact floatLitVal_none_of_js_none _ (hnone m hm1)
        · rcases List.mem_cons.mp hm2 with rfl | hm3
          · exact floatLitVal_of_sign_tail_infinity _ (by rw [hshape])
          · have hmn : m < n := range_reverse_decomp t.toList.length l1 l2 n hl m hm3
            have hpre : t.toList.take m <+: t.toList.take n := by
              have heq : t.toList.take m = (t.toList.take n).take m := by
                rw [List.take_take]
                congr 1
                omega
              rw [heq]
              exact List.take_prefix m (t.toList.take n)
            exact floatLitVal_none_of_prefix_infinity _ _ hshape hpre
      rw [hnone2]
      rfl

/-- The pipeline's `parseNumber` is the finite-valued restriction of the full
`parseNumberJS` on every cell. -/
theorem parseNumber_eq_jsToFinite (c : Cell) :
    parseNumber c = jsToFinite (parseNumberJS c) := by
  cases c with
  | str s =>
    by_cases hs : s = ""
    · subst hs
      rfl
    · show (if s = "" then none else parseFloatJS (cleanNumberString s))
        = jsToFinite (if s = "" then none else jsParseFloat (cleanNumberString s))
      rw [if_neg hs, if_neg hs]
      exact parseFloat_bridge _ (cleanNumberString_no_ws s)
  | num q => rfl
  | nan => rfl
  | null => rfl
  | undef => rfl

/-- On a non-empty string cell, `parseNumberJS` is the longest-valid-prefix search
over the cleaned characters (`parseFloat`'s own whitespace skipping is vacuous there,
since cleaning already removed all whitespace). -/
theorem parseNumberJS_str (s : String) (hs : s ≠ "") :
    parseNumberJS (Cell.str s)
      = ((List.range ((cleanNumberString s).toList.length + 1)).reverse).findSome?
          (fun n => jsFloatLitVal ((cleanNumberString s).toList.take n)) := by
  show (if s = "" then none else jsParseFloat (cleanNumberString s)) = _
  rw [if_neg hs]
  unfold jsParseFloat
  dsimp only
  have hdrop : (cleanNumberString s).toList.dropWhile isJsWhitespace
      = (cleanNumberString s).toList := by
    cases ht : (cleanNumberString s).toList with
    | nil => rfl
    | cons c tl =>
      rw [List.dropWhile_cons, if_neg]
      simp [cleanNumberString_no_ws s c (by rw [ht]; exact List.mem_cons_self c tl)]
  rw [hdrop]

/-- Claim C1, counterexample.  The claim says `parseNumber` returns `null` whenever the
remainder left after stripping `[$,\s]` is not a valid floating-point literal.  On the
string input `"12abc"` nothing is stripped, the remainder `"12abc"` is not a valid
floating-point literal, and yet `parseNumber` returns `12`, not `null`, because
JavaScript `parseFloat` accepts the longest numeric prefix of its argument. -/
theorem C1_counterexample :
    cleanNumberString "12abc" = "12abc"
    ∧ jsFloatLitVal ("12abc".toList) = none
    ∧ parseNumberJS (Cell.str "12abc") = some (JSNum.finite 12)
    ∧ parseNumber (Cell.str "12abc") = some 12 := by
  refine ⟨?_, ?_, ?_, ?_⟩ <;> with_unfolding_all rfl

/-- Claim C1, amended.  For every string input, `parseNumber` strips the currency
symbol, thousands separators and surrounding/interior whitespace (the full JavaScript
`\s` class) and then parses the longest prefix of the remainder that is a
floating-point literal — the `Infinity` production included — returning `null`
exactly when no prefix of the remainder is a valid number; the row pipeline keeps
only the finite results.  In particular `parseNumber("$1,234.56") = 1234.56`,
`parseNumber("") = null`, `parseNumber("abc") = null`, `parseNumber(42) = 42`, and
`parseNumber("Infinity") = Infinity`. -/
theorem C1_amended :
    (∀ s : String,
      (parseNumberJS (Cell.str s) = none ↔
        ∀ n : Nat, jsFloatLitVal ((cleanNumberString s).toList.take n) = none)
      ∧ (∀ v : JSNum, jsFloatLitVal (cleanNumberString s).toList = some v →
          parseNumberJS (Cell.str s) = some v))
    ∧ (∀ c : Cell, parseNumber c = jsToFinite (parseNumberJS c))
    ∧ parseNumberJS (Cell.str "$1,234.56") = some (JSNum.finite (1234.56 : ℚ))
    ∧ parseNumberJS (Cell.str "") = none
    ∧ parseNumberJS (Cell.str "abc") = none
    ∧ parseNumberJS (Cell.num 42) = some (JSNum.finite 42)
    ∧ parseNumberJS (Cell.str "Infinity") = some JSNum.posInf
    ∧ parseNumber (Cell.str "$1,234.56") = some (1234.56 : ℚ) := by
  have hempty : (cleanNumberString "").toList = [] := by with_unfolding_all rfl
  refine ⟨fun s => ⟨?_, ?_⟩, parseNumber_eq_jsToFinite, ?_, ?_, ?_, ?_, ?_, ?_⟩
  · by_cases hs : s = ""
    · subst hs
      constructor
      · intro _ n
        rw [hempty, List.take_nil]
        rfl
      · intro _
        rfl
    · rw [parseNumberJS_str s hs]
      exact longestPrefixVal_eq_none_iff jsFloatLitVal _
  · intro v hv
    by_cases hs : s = ""
    · subst hs
      rw [hempty] at hv
      have h0 : jsFloatLitVal [] = none := rfl
      rw [h0] at hv
      exact Option.noConfusion hv
    · rw [parseNumberJS_str s hs]
      exact longestPrefixVal_eq_some_of_full jsFloatLitVal _ v hv
  · with_unfolding_all rfl
  · rfl
  · with_unfolding_all rfl
  · rfl
  · with_unfolding_all rfl
  · with_unfolding_all rfl

/-- Witness for C1_amended: the whole-remainder implication applied at the concrete
string `"7.5"`. -/
theorem C1_amended_witness :
    parseNumberJS (Cell.str "7.5") = some (JSNum.finite (7.5 : ℚ)) :=
  (C1_amended.1 "7.5").2 (JSNum.finite (7.5 : ℚ)) (by with_unfolding_all rfl)

/-- `ColumnMapping` of `stores/types.ts`: a source column's display name and its
zero-based position. -/
structure ColumnMapping where
  name : String
  index : Int
deriving DecidableEq, Repr

/-- `MappingConfig = Record<string, ColumnMapping> | null` of `stores/types.ts`.
The record is an ordered key-value list (`none` is JavaScript `null`). -/
abbrev MappingConfig := Option (List (String × ColumnMapping))

/-- Property read `m[k]` on a record: the last binding of `k` wins (later assignments
to the same JavaScript object key overwrite earlier ones); a missing key reads as
`undefined`, here `none`. -/
def recordGet (m : List (String × ColumnMapping)) (k : String) : Option ColumnMapping :=
  (m.reverse.find? (fun p => p.1 = k)).map (fun p => p.2)

/-- Array read `row[i]`: out-of-range and negative indices read as `undefined`. -/
def cellAt (row : List Cell) (i : Int) : Cell :=
  if i < 0 then Cell.undef else row.getD i.toNat Cell.undef

/-- The distinct failure messages a vendor row can be rejected with, one constructor
per message template of the source.  `undefinedProperty f` is the `TypeError` raised
by reading `.index` of the absent mapping entry `f`; `rawSchemaIssues` /
`finalSchemaIssues` carry the ordered list of field names zod reports (the source
joins them into one message). -/
inductive VendorErr where
  | mappingMissing
  | undefinedProperty (field : String)
  | mpnIndexOutOfBounds
  | costIndexOutOfBounds
  | mpnMissing
  | costUnparsable
  | rawSchemaIssues (fields : List String)
  | finalSchemaIssues (fields : List String)
deriving DecidableEq, Repr

/-- Result of `extractRawVendorRow`: the raw MPN cell and the `parseNumber` results
for Cost and Unit Divider. -/
structure VendorRawExtract where
  MPN : Cell
  Cost : Option ℚ
  UnitDivider : Option ℚ
deriving DecidableEq, Repr

/-- `extractRawVendorRow` of `vendor-processor.ts`: requires the mapping, bounds-checks
the MPN and Cost indices, reads MPN unconverted, Cost through `parseNumber`, and the
optional Unit Divider through `parseNumber` when mapped and in range (`null`, hence
`parseNumber` result `none`, otherwise). -/
def extractRawVendorRow (row : List Cell) (mapping : MappingConfig) :
    Except VendorErr VendorRawExtract :=
  match mapping with
  | none => .error .mappingMissing
  | some m =>
    match recordGet m "MPN" with
    | none => .error (.undefinedProperty "MPN")
    | some mpnCol =>
      if mpnCol.index < 0 ∨ (row.length : Int) ≤ mpnCol.index then
        .error .mpnIndexOutOfBounds
      else
        match recordGet m "Cost" with
        | none => .error (.undefinedProperty "Cost")
        | some costCol =>
          if costCol.index < 0 ∨ (row.length : Int) ≤ costCol.index then
            .error .costIndexOutOfBounds
          else
            let dividerRaw :=
              match recordGet m "Unit Divider" with
              | some udCol =>
                if 0 ≤ udCol.index ∧ udCol.index < (row.length : Int) then
                  cellAt row udCol.index
                else Cell.null
              | none => Cell.null
            .ok { MPN := cellAt row mpnCol.index
                  Cost := parseNumber (cellAt row costCol.index)
                  UnitDivider := parseNumber dividerRaw }

/-- The check `value === null || value === undefined || value === ''`. -/
def isMissingCell (c : Cell) : Bool :=
  c = Cell.null || c = Cell.undef || c = Cell.str ""

/-- A vendor row accepted by `validateRawVendorRow`. -/
structure VendorRowValidated where
  MPN : Cell
  Cost : ℚ
  UnitDivider : Option ℚ
deriving DecidableEq, Repr

/-- The fields of `VendorRowRawSchema` that fail on the raw data, in schema declaration
order.  `MPN` fails exactly on `NaN` (`z.number()` rejects `NaN`; `null`, `undefined`
and `''` were excluded by the explicit checks run before the schema); `Cost` fails when
negative; `UnitDivider` fails when present and not strictly positive. -/
def vendorRawSchemaIssues (mpn : Cell) (cost : ℚ) (ud : Option ℚ) : List String :=
  (if mpn = Cell.nan then ["MPN"] else [])
    ++ (if cost < 0 then ["Cost"] else [])
    ++ (match ud with
        | some d => if d ≤ 0 then ["UnitDivider"] else []
        | none => [])

/-- `validateRawVendorRow` of `vendor-processor.ts`: rejects a missing MPN, then an
unparsable Cost, then runs `VendorRowRawSchema.safeParse`, whose failing fields are
aggregated into a single error. -/
def validateRawVendorRow (raw : VendorRawExtract) : Except VendorErr VendorRowValidated :=
  if isMissingCell raw.MPN then .error .mpnMissing
  else
    match raw.Cost with
    | none => .error .costUnparsable
    | some c =>
      let issues := vendorRawSchemaIssues raw.MPN c raw.UnitDivider
      if issues = [] then .ok { MPN := raw.MPN, Cost := c, UnitDivider := raw.UnitDivider }
      else .error (.rawSchemaIssues issues)

/-- Strip all factors `p` (for `p ≥ 2`) out of `n`, with explicit fuel for structural
recursion: returns the multiplicity of `p` in `n` and the remaining cofactor. -/
def stripFactor (p : Nat) : Nat → Nat → Nat × Nat
  | 0, n => (0, n)
  | fuel + 1, n =>
    if 2 ≤ p ∧ 0 < n ∧ n % p = 0 then
      let r := stripFactor p fuel (n / p)
      (r.1 + 1, r.2)
    else (0, n)

/-- The least `k` with `den ∣ 10^k`, when `den = 2^a · 5^b` (then `k = max a b`);
`none` otherwise.  Every number a spreadsheet cell can carry is an IEEE double whose
JavaScript rendering is a finite decimal, so only such denominators occur in the
image of the embedding. -/
def decimalExponent (den : Nat) : Option Nat :=
  let t2 := stripFactor 2 den den
  let t5 := stripFactor 5 t2.2 t2.2
  if t5.2 = 1 then some (max t2.1 t5.1) else none

/-- Positional decimal rendering of the unsigned digit string `digits` with `k`
fractional digits. -/
def positionalForm (digits : String) (k : Nat) : String :=
  if k = 0 then digits
  else if k < digits.length then
    (digits.toList.take (digits.length - k)).asString ++ "." ++
      (digits.toList.drop (digits.length - k)).asString
  else
    "0." ++ (List.replicate (k - digits.length) '0').asString ++ digits

/-- The exponential rendering `d.dd…e±E` JavaScript uses outside `[1e-6, 1e21)`:
first significant digit, a point and the remaining digits when there are any
(trailing zeros removed), then the signed decimal exponent. -/
def exponentialForm (digits : String) (e : Int) : String :=
  let ds := (digits.toList.reverse.dropWhile (fun c => c = '0')).reverse
  let mantissa :=
    match ds with
    | [] => "0"
    | [d] => String.singleton d
    | d :: rest => String.singleton d ++ "." ++ rest.asString
  mantissa ++ "e" ++ (if e < 0 then "-" else "+") ++ toString e.natAbs

/-- JavaScript `String(x)` on a finite number: `"0"` for zero; otherwise, writing
`|x| = digits × 10^(-k)` with `k` least (so the last fractional digit is nonzero),
JavaScript prints the positional decimal when `10^-6 ≤ |x| < 10^21` and the
exponential form otherwise.  `Cell.num q` models the IEEE double whose shortest
JavaScript rendering is the decimal expansion of `q`; a rational whose denominator
has a prime factor other than 2 and 5 is the value of no IEEE double and hence of no
cell, so the `num/den` fallback lies outside the image of the embedding. -/
def jsNumToString (q : ℚ) : String :=
  if q = 0 then "0"
  else
    match decimalExponent q.den with
    | none => toString q.num ++ "/" ++ toString q.den
    | some k =>
      let sign := if q.num < 0 then "-" else ""
      let digits := Nat.repr (q.num.natAbs * 10 ^ k / q.den)
      let e : Int := (digits.length : Int) - 1 - (k : Int)
      if 21 ≤ e ∨ e ≤ -7 then sign ++ exponentialForm digits e
      else sign ++ positionalForm digits k

/-- JavaScript `String(x)` on a cell. -/
def cellToString : Cell → String
  | Cell.str s => s
  | Cell.num q => jsNumToString q
  | Cell.nan => "NaN"
  | Cell.null => "null"
  | Cell.undef => "undefined"

/-- A normalized vendor row (`VendorRowSchema`). -/
structure VendorRow where
  MPN : String
  Cost : ℚ
  UnitDivider : ℚ
  UnitCost : ℚ
deriving DecidableEq, Repr

/-- The fields of the final `VendorRowSchema` that fail on a normalized row, in schema
declaration order. -/
def vendorFinalSchemaIssues (n : VendorRow) : List String :=
  (if n.MPN = "" then ["MPN"] else [])
    ++ (if n.Cost < 0 then ["Cost"] else [])
    ++ (if n.UnitDivider ≤ 0 then ["UnitDivider"] else [])
    ++ (if n.UnitCost < 0 then ["UnitCost"] else [])

/-- `normalizeVendorRow` of `vendor-processor.ts`: `UnitDivider` defaults to `1` when
absent, `UnitCost = Cost / UnitDivider`, MPN is coerced to a string, and the result is
checked against `VendorRowSchema`. -/
def normalizeVendorRow (validated : VendorRowValidated) : Except VendorErr VendorRow :=
  let unitDivider := validated.UnitDivider.getD 1
  let normalized : VendorRow :=
    { MPN := cellToString validated.MPN
      Cost := validated.Cost
      UnitDivider := unitDivider
      UnitCost := validated.Cost / unitDivider }
  let issues := vendorFinalSchemaIssues normalized
  if issues = [] then .ok normalized else .error (.finalSchemaIssues issues)

/-- `parseVendorRow` of `vendor-processor.ts`: extract, validate and normalize,
propagating the first failure.  (The `rowIndex` argument of the source only
interpolates the row number into the message text and is therefore not a parameter
of the model; `processVendorRows` attaches the row number to the recorded error.) -/
def parseVendorRow (row : List Cell) (mapping : MappingConfig) :
    Except VendorErr VendorRow := do
  let raw ← extractRawVendorRow row mapping
  let validated ← validateRawVendorRow raw
  normalizeVendorRow validated

/-- A recorded per-row failure: 1-based row number and the error. -/
structure RowError (ε : Type) where
  row : Nat
  error : ε
deriving DecidableEq, Repr

/-- The accumulating `rows.forEach` loop shared by `processVendorRows` and
`processCompanyRows`: every row is attempted independently; a success is appended to
the normalized output, a failure is recorded as `{row: index + 1, error}`; the loop
never aborts. -/
def processRowsGo (parse : List Cell → Except ε α) :
    Nat → List (List Cell) → List α × List (RowError ε)
  | _, [] => ([], [])
  | index, row :: rest =>
    let acc := processRowsGo parse (index + 1) rest
    match parse row with
    | .ok a => (a :: acc.1, acc.2)
    | .error e => (acc.1, { row := index + 1, error := e } :: acc.2)

/-- `processVendorRows` of `vendor-processor.ts`: returns `{normalized: [], errors: []}`
when the mapping is `null`, otherwise runs the accumulating loop over all rows. -/
def processVendorRows (rows : List (List Cell)) (mapping : MappingConfig) :
    List VendorRow × List (RowError VendorErr) :=
  match mapping with
  | none => ([], [])
  | some _ => processRowsGo (fun row => parseVendorRow row mapping) 0 rows

/-- Property read `obj[k]` on the header-keyed row object: the last binding of a key
wins (duplicate headers overwrite), and a missing key reads as `undefined`. -/
def objectGet (obj : List (String × Cell)) (k : String) : Cell :=
  ((obj.reverse.find? (fun p => p.1 = k)).map (fun p => p.2)).getD Cell.undef

/-- The distinct failure messages a company row can be rejected with, one constructor
per message template of the source. -/
inductive CompanyErr where
  | headersRequired
  | rowLengthMismatch
  | mpnMissing
  | itemMissing
  | costUnparsable
  | costNegative
  | priceUnparsable
  | priceNegative
  | rawSchemaIssues (fields : List String)
  | finalSchemaIssues (fields : List String)
deriving DecidableEq, Repr

/-- `extractRawCompanyRow` of `company-processor.ts`: requires non-empty headers and a
row of exactly the same length, and zips headers with values into a key-value object. -/
def extractRawCompanyRow (row : List Cell) (headers : List String) :
    Except CompanyErr (List (String × Cell)) :=
  if headers = [] then .error .headersRequired
  else if row.length ≠ headers.length then .error .rowLengthMismatch
  else .ok (headers.zip row)

/-- JavaScript truthiness of a cell: `''`, `0`, `NaN`, `null` and `undefined` are falsy. -/
def cellFalsy : Cell → Bool
  | Cell.str s => s = ""
  | Cell.num q => q = 0
  | Cell.nan => true
  | Cell.null => true
  | Cell.undef => true

/-- The check `!raw.Item || (typeof raw.Item === 'string' && raw.Item.trim() === '')`. -/
def isBlankItem (c : Cell) : Bool :=
  cellFalsy c ||
    (match c with
     | Cell.str s => jsTrim s = ""
     | _ => false)

/-- `x || null` (and equally `x || undefined`): a falsy cell collapses to `none`. -/
def truthyCell (c : Cell) : Option Cell :=
  if cellFalsy c then none else some c

/-- Whether an optional field value fails `z.string().nullable().optional()` /
`z.string().optional()`: a present non-string value. -/
def optionalStringIssue : Option Cell → Bool
  | some (Cell.str _) => false
  | some _ => true
  | none => false

/-- A company row accepted by `validateRawCompanyRow` (`CompanyRowRawSchema`). -/
structure CompanyRowValidated where
  MPN : Cell
  Item : String
  Description : Option Cell
  PreferredVendor : Option Cell
  Cost : ℚ
  Price : ℚ
  UM : Option Cell
deriving DecidableEq, Repr

/-- The fields of `CompanyRowRawSchema` that fail on the validated object, in schema
declaration order.  `MPN` fails exactly on `NaN` (`null`, `undefined` and `''` were
excluded by the explicit check run before the schema); `Item` was already coerced and
trimmed; the optional fields fail when present and non-string; `Cost`/`Price` fail
when negative. -/
def companyRawSchemaIssues (v : CompanyRowValidated) : List String :=
  (if v.MPN = Cell.nan then ["MPN"] else [])
    ++ (if jsTrim v.Item = "" then ["Item"] else [])
    ++ (if optionalStringIssue v.Description then ["Description"] else [])
    ++ (if optionalStringIssue v.PreferredVendor then ["PreferredVendor"] else [])
    ++ (if v.Cost < 0 then ["Cost"] else [])
    ++ (if v.Price < 0 then ["Price"] else [])
    ++ (if optionalStringIssue v.UM then ["U/M"] else [])

/-- `validateRawCompanyRow` of `company-processor.ts`: in order, rejects a missing MPN,
a missing/blank Item, an unparsable Cost, a negative Cost, an unparsable Price and a
negative Price; then builds the validated object (Item coerced to a trimmed string,
optional fields collapsed to `null` when falsy) and runs
`CompanyRowRawSchema.safeParse`, whose failing fields are aggregated into a single
error. -/
def validateRawCompanyRow (raw : List (String × Cell)) :
    Except CompanyErr CompanyRowValidated :=
  if isMissingCell (objectGet raw "MPN") then .error .mpnMissing
  else if isBlankItem (objectGet raw "Item") then .error .itemMissing
  else
    match parseNumber (objectGet raw "Cost") with
    | none => .error .costUnparsable
    | some cost =>
      if cost < 0 then .error .costNegative
      else
        match parseNumber (objectGet raw "Price") with
        | none => .error .priceUnparsable
        | some price =>
          if price < 0 then .error .priceNegative
          else
            let validated : CompanyRowValidated :=
              { MPN := objectGet raw "MPN"
                Item := jsTrim (cellToString (objectGet raw "Item"))
                Description := truthyCell (objectGet raw "Description")
                PreferredVendor := truthyCell (objectGet raw "PreferredVendor")
                Cost := cost
                Price := price
                UM := truthyCell (objectGet raw "U/M") }
            let issues := companyRawSchemaIssues validated
            if issues = [] then .ok validated else .error (.rawSchemaIssues issues)

/-- A normalized company row (`CompanyRowSchema`).  `extra` holds the additional
columns admitted by the schema's `.catchall(z.any())`; the processor pipeline always
produces `extra = []`, but rows handed to the match/markup stage may carry extras. -/
structure CompanyRow where
  MPN : String
  Item : String
  Description : Option String
  PreferredVendor : Option String
  Cost : ℚ
  Price : ℚ
  UM : Option String
  extra : List (String × Cell) := []
deriving DecidableEq, Repr

/-- The string value of an optional field that passed the string check. -/
def optionalString : Option Cell → Option String
  | some (Cell.str s) => some s
  | _ => none

/-- The fields of the final `CompanyRowSchema` that fail on the normalized data, in
schema declaration order (`mpn` is the already-coerced MPN string). -/
def companyFinalSchemaIssues (mpn : String) (v : CompanyRowValidated) : List String :=
  (if mpn = "" then ["MPN"] else [])
    ++ (if v.Item = "" then ["Item"] else [])
    ++ (if optionalStringIssue v.Description then ["Description"] else [])
    ++ (if optionalStringIssue v.PreferredVendor then ["PreferredVendor"] else [])
    ++ (if v.Cost < 0 then ["Cost"] else [])
    ++ (if v.Price < 0 then ["Price"] else [])
    ++ (if optionalStringIssue v.UM then ["U/M"] else [])

/-- `normalizeCompanyRow` of `company-processor.ts`: MPN coerced to a string (not
trimmed), Item passed through, optional fields mapped from `null` to `undefined`, and
the result checked against `CompanyRowSchema` (whose failing fields are aggregated, in
declaration order, into a single error). -/
def normalizeCompanyRow (v : CompanyRowValidated) : Except CompanyErr CompanyRow :=
  let mpn := cellToString v.MPN
  let issues := companyFinalSchemaIssues mpn v
  if issues = [] then
    .ok { MPN := mpn
          Item := v.Item
          Description := optionalString v.Description
          PreferredVendor := optionalString v.PreferredVendor
          Cost := v.Cost
          Price := v.Price
          UM := optionalString v.UM
          extra := [] }
  else .error (.finalSchemaIssues issues)

/-- `parseCompanyRow` of `company-processor.ts`: extract, validate and normalize,
propagating the first failure (the `rowIndex` argument of the source only
interpolates into message text and is dropped, as for the vendor side). -/
def parseCompanyRow (row : List Cell) (headers : List String) :
    Except CompanyErr CompanyRow := do
  let raw ← extractRawCompanyRow row headers
  let validated ← validateRawCompanyRow raw
  normalizeCompanyRow validated

/-- `processCompanyRows` of `company-processor.ts`: returns
`{normalized: [], errors: []}` when the headers list is absent/empty, otherwise runs
the accumulating loop over all rows. -/
def processCompanyRows (rows : List (List Cell)) (headers : List String) :
    List CompanyRow × List (RowError CompanyErr) :=
  if headers = [] then ([], [])
  else processRowsGo (fun row => parseCompanyRow row headers) 0 rows

/-- `MatchedItem` of `api/match.ts`. -/
structure MatchedItem where
  MPN : String
  companyRow : CompanyRow
  vendorRow : Option VendorRow
  isOrphaned : Bool
  costDifference : Option ℚ
deriving DecidableEq, Repr

/-- The lookup in `new Map(vendorRows.map(v => [v.MPN, v]))` followed by
`.get(mpn) || null`: the entry of the **last** vendor row with the given MPN
(later `Map` insertions overwrite earlier ones), `none` when there is none. -/
def vendorMapGet (vendorRows : List VendorRow) (mpn : String) : Option VendorRow :=
  vendorRows.reverse.find? (fun v => v.MPN = mpn)

/-- `matchItems` of `api/match.ts`: one item per company row, matched against the
vendor lookup map by MPN. -/
def matchItems (companyRows : List CompanyRow) (vendorRows : List VendorRow) :
    List MatchedItem :=
  companyRows.map (fun companyRow =>
    match vendorMapGet vendorRows companyRow.MPN with
    | some vendorRow =>
      { MPN := companyRow.MPN
        companyRow := companyRow
        vendorRow := some vendorRow
        isOrphaned := false
        costDifference := some (companyRow.Cost - vendorRow.Cost) }
    | none =>
      { MPN := companyRow.MPN
        companyRow := companyRow
        vendorRow := none
        isOrphaned := true
        costDifference := none })

/-- `Markup` of the markup module. -/
structure Markup where
  multiplier : ℚ
deriving DecidableEq, Repr

/-- `calculatePrice(cost, markup) = cost * markup.multiplier`. -/
def calculatePrice (cost : ℚ) (markup : Markup) : ℚ :=
  cost * markup.multiplier

/-- `applyPriceUpdates` of the markup module: a matched item yields its company row
with `Cost` replaced by the vendor cost and `Price` recomputed (the object spread
`{...item.companyRow, Cost, Price}` keeps every other field); an orphaned item yields
its company row unchanged. -/
def applyPriceUpdates (matchedItems : List MatchedItem) (markup : Markup) :
    List CompanyRow :=
  matchedItems.map (fun item =>
    match item.vendorRow with
    | some vendorRow =>
      { item.companyRow with
          Cost := vendorRow.Cost
          Price := calculatePrice vendorRow.Cost markup }
    | none => item.companyRow)

/-- Inversion for a successful `Except` bind. -/
theorem except_bind_ok {ε α β : Type} (x : Except ε α) (f : α → Except ε β) (b : β) :
    (x >>= f) = .ok b ↔ ∃ a, x = .ok a ∧ f a = .ok b := by
  cases x <;> simp [Bind.bind, Except.bind]

/-- Claim C4: when the same MPN appears in more than one vendor row, `matchItems`
resolves a company row with that MPN against the last vendor occurrence in iteration
order (earlier entries are silently shadowed): for vendor rows
`[{MPN:"A",Cost:10}, {MPN:"A",Cost:20}]` and company row `{MPN:"A",Cost:15}` the
result is matched against the `Cost:20` row and has
`costDifference = 15 - 20 = -5`. -/
theorem C4_duplicate_mpn_last_wins :
    matchItems
        [{ MPN := "A", Item := "W", Description := none, PreferredVendor := none,
           Cost := 15, Price := 20, UM := none, extra := [] }]
        [{ MPN := "A", Cost := 10, UnitDivider := 1, UnitCost := 10 },
         { MPN := "A", Cost := 20, UnitDivider := 1, UnitCost := 20 }]
      = [{ MPN := "A",
           companyRow := { MPN := "A", Item := "W", Description := none,
                           PreferredVendor := none, Cost := 15, Price := 20, UM := none,
                           extra := [] },
           vendorRow := some { MPN := "A", Cost := 20, UnitDivider := 1, UnitCost := 20 },
           isOrphaned := false,
           costDifference := some (15 - 20 : ℚ) }]
    ∧ (15 - 20 : ℚ) = -5 := by
  constructor <;> with_unfolding_all rfl

/-- Claim C7, counterexample.  The claim says an absent **or empty** mapping makes
`processVendorRows` return `{normalized: [], errors: []}` without attempting any row.
An empty-but-present mapping object is truthy, so the `!mapping` guard does not fire:
with one input row the function attempts it, the property read `mapping.MPN.index`
raises a `TypeError`, and a per-row error is recorded. -/
theorem C7_counterexample :
    processVendorRows [[Cell.num 1]] (some [])
      = ([], [{ row := 1, error := VendorErr.undefinedProperty "MPN" }])
    ∧ processVendorRows [[Cell.num 1]] (some []) ≠ ([], []) := by
  constructor
  · rfl
  · intro h
    simp [processVendorRows, processRowsGo, parseVendorRow, extractRawVendorRow,
      recordGet, Bind.bind, Except.bind] at h

/-- Claim C7, amended.  `processVendorRows` with an absent (`null`) mapping and
`processCompanyRows` with an empty headers list return `{normalized: [], errors: []}`
without attempting any row; an empty-but-present vendor mapping object, however, does
not short-circuit: every row is attempted and fails with a per-row error (the
`TypeError` from the unmapped `MPN` entry). -/
theorem C7_amended :
    ∀ rows : List (List Cell),
      processVendorRows rows none = ([], [])
      ∧ processCompanyRows rows [] = ([], [])
      ∧ (processVendorRows rows (some [])).1 = []
      ∧ (processVendorRows rows (some [])).2.length = rows.length
      ∧ ∀ e ∈ (processVendorRows rows (some [])).2,
          e.error = VendorErr.undefinedProperty "MPN" := by
  intro rows
  have hparse : ∀ row : List Cell,
      parseVendorRow row (some []) = .error (.undefinedProperty "MPN") := fun _ => rfl
  have go : ∀ (rs : List (List Cell)) (i : Nat),
      (processRowsGo (fun row => parseVendorRow row (some [])) i rs).1 = []
      ∧ (processRowsGo (fun row => parseVendorRow row (some [])) i rs).2.length = rs.length
      ∧ ∀ e ∈ (processRowsGo (fun row => parseVendorRow row (some [])) i rs).2,
          e.error = VendorErr.undefinedProperty "MPN" := by
    intro rs
    induction rs with
    | nil => exact fun i => ⟨rfl, rfl, by simp [processRowsGo]⟩
    | cons r rest ih =>
      intro i
      have h1 := (ih (i + 1)).1
      have h2 := (ih (i + 1)).2.1
      have h3 := (ih (i + 1)).2.2
      simp only [processRowsGo, hparse r]
      refine ⟨h1, by simp [h2], ?_⟩
      intro e he
      simp only [List.mem_cons] at he
      rcases he with he | he
      · rw [he]
      · exact h3 e he
  exact ⟨rfl, rfl, (go rows 0).1, (go rows 0).2.1, (go rows 0).2.2⟩

/-- Witness for C7_amended at one concrete row. -/
theorem C7_amended_witness :
    (processVendorRows [[Cell.num 1]] none = ([], []))
    ∧ (processVendorRows [[Cell.num 1]] (some [])).2.length = 1 := by
  have h := C7_amended [[Cell.num 1]]
  exact ⟨h.1, h.2.2.2.1⟩

/-- Claim C8: `applyPriceUpdates` returns an array of the same length and order as its
input; an item with a vendor row yields the company row with `Cost` replaced by the
vendor cost and `Price` set to `calculatePrice(vendorCost, markup)`, which equals
`vendorCost * markup.multiplier`; an orphaned item yields its company row unchanged. -/
theorem C8_apply_price_updates :
    ∀ (matchedItems : List MatchedItem) (markup : Markup),
      (applyPriceUpdates matchedItems markup).length = matchedItems.length
      ∧ ∀ (i : Nat) (item : MatchedItem) (out : CompanyRow),
          matchedItems[i]? = some item →
          (applyPriceUpdates matchedItems markup)[i]? = some out →
          (∀ v : VendorRow, item.vendorRow = some v →
            out = { item.companyRow with
                      Cost := v.Cost
                      Price := calculatePrice v.Cost markup }
            ∧ calculatePrice v.Cost markup = v.Cost * markup.multiplier)
          ∧ (item.vendorRow = none → out = item.companyRow) := by
  intro items markup
  constructor
  · simp [applyPriceUpdates]
  · intro i item out hitem hout
    unfold applyPriceUpdates at hout
    rw [List.getElem?_map, hitem, Option.map_some'] at hout
    have hfi := Option.some.inj hout
    constructor
    · intro v hv
      rw [← hfi, hv]
      exact ⟨rfl, rfl⟩
    · intro hv
      rw [← hfi, hv]

/-- Witness for C8_apply_price_updates on a one-item list. -/
theorem C8_apply_price_updates_witness :
    calculatePrice (10 : ℚ) { multiplier := (1.5 : ℚ) } = (10 : ℚ) * (1.5 : ℚ) := by
  have h := C8_apply_price_updates
    [{ MPN := "A",
       companyRow := { MPN := "A", Item := "W", Description := none,
                       PreferredVendor := none, Cost := 15, Price := 20, UM := none,
                       extra := [] },
       vendorRow := some { MPN := "A", Cost := 10, UnitDivider := 1, UnitCost := 10 },
       isOrphaned := false, costDifference := some 5 }]
    { multiplier := (1.5 : ℚ) }
  have h2 := h.2 0
    { MPN := "A",
      companyRow := { MPN := "A", Item := "W", Description := none,
                      PreferredVendor := none, Cost := 15, Price := 20, UM := none,
                      extra := [] },
      vendorRow := some { MPN := "A", Cost := 10, UnitDivider := 1, UnitCost := 10 },
      isOrphaned := false, costDifference := some 5 }
    { MPN := "A", Item := "W", Description := none, PreferredVendor := none,
      Cost := 10, Price := calculatePrice (10 : ℚ) { multiplier := (1.5 : ℚ) },
      UM := none, extra := [] }
    rfl rfl
  exact (h2.1 { MPN := "A", Cost := 10, UnitDivider := 1, UnitCost := 10 } rfl).2

/-- Claim C10: `applyPriceUpdates` preserves every company-row field other than `Cost`
and `Price` (including the catchall extra columns) for matched items, and returns the
company row entirely unchanged for orphaned items. -/
theorem C10_frame :
    ∀ (matchedItems : List MatchedItem) (markup : Markup) (i : Nat)
      (item : MatchedItem) (out : CompanyRow),
      matchedItems[i]? = some item →
      (applyPriceUpdates matchedItems markup)[i]? = some out →
      out.MPN = item.companyRow.MPN
      ∧ out.Item = item.companyRow.Item
      ∧ out.Description = item.companyRow.Description
      ∧ out.PreferredVendor = item.companyRow.PreferredVendor
      ∧ out.UM = item.companyRow.UM
      ∧ out.extra = item.companyRow.extra
      ∧ (item.vendorRow = none → out = item.companyRow) := by
  intro items markup i item out hitem hout
  unfold applyPriceUpdates at hout
  rw [List.getElem?_map, hitem, Option.map_some'] at hout
  have hfi := Option.some.inj hout
  rw [← hfi]
  cases hv : item.vendorRow with
  | some v => simp [hv]
  | none => simp [hv]

/-- Witness for C10_frame: the extra column of a matched item survives the update. -/
theorem C10_frame_witness :
    ({ MPN := "B", Item := "X", Description := some "d", PreferredVendor := some "p",
       Cost := 7, Price := calculatePrice (7 : ℚ) { multiplier := (2 : ℚ) },
       UM := some "EA", extra := [("Color", Cell.str "red")] } : CompanyRow).extra
      = [("Color", Cell.str "red")] := by
  have h := C10_frame
    [{ MPN := "B",
       companyRow := { MPN := "B", Item := "X", Description := some "d",
                       PreferredVendor := some "p", Cost := 3, Price := 4,
                       UM := some "EA", extra := [("Color", Cell.str "red")] },
       vendorRow := some { MPN := "B", Cost := 7, UnitDivider := 1, UnitCost := 7 },
       isOrphaned := false, costDifference := some (-4) }]
    { multiplier := (2 : ℚ) } 0
    { MPN := "B",
      companyRow := { MPN := "B", Item := "X", Description := some "d",
                      PreferredVendor := some "p", Cost := 3, Price := 4,
                      UM := some "EA", extra := [("Color", Cell.str "red")] },
      vendorRow := some { MPN := "B", Cost := 7, UnitDivider := 1, UnitCost := 7 },
      isOrphaned := false, costDifference := some (-4) }
    { MPN := "B", Item := "X", Description := some "d", PreferredVendor := some "p",
      Cost := 7, Price := calculatePrice (7 : ℚ) { multiplier := (2 : ℚ) },
      UM := some "EA", extra := [("Color", Cell.str "red")] }
    rfl rfl
  exact h.2.2.2.2.2.1

/-- Claim C3: `matchItems` returns one item per company row in input order (the output
length equals `companyRows.length`); a company row whose MPN is in the vendor lookup
yields `isOrphaned = false` and `costDifference = companyCost - vendorCost` against a
vendor row of that MPN from the list; one whose MPN is absent yields
`vendorRow = null`, `isOrphaned = true` and `costDifference = null`; and a vendor row
whose MPN matches no company row appears nowhere in the result. -/
theorem C3_match_left_join :
    ∀ (companyRows : List CompanyRow) (vendorRows : List VendorRow),
      (matchItems companyRows vendorRows).length = companyRows.length
      ∧ (∀ (i : Nat) (item : MatchedItem) (c : CompanyRow),
          (matchItems companyRows vendorRows)[i]? = some item →
          companyRows[i]? = some c →
          item.companyRow = c ∧ item.MPN = c.MPN
          ∧ (∀ v : VendorRow, item.vendorRow = some v →
              item.isOrphaned = false
              ∧ item.costDifference = some (c.Cost - v.Cost)
              ∧ v ∈ vendorRows ∧ v.MPN = c.MPN)
          ∧ (item.vendorRow = none →
              item.isOrphaned = true ∧ item.costDifference = none
              ∧ ∀ v ∈ vendorRows, v.MPN ≠ c.MPN))
      ∧ (∀ item ∈ matchItems companyRows vendorRows, ∀ v : VendorRow,
          item.vendorRow = some v → ∃ c ∈ companyRows, c.MPN = v.MPN) := by
  intro cs vs
  refine ⟨by simp [matchItems], ?_, ?_⟩
  · intro i item c hitem hc
    unfold matchItems at hitem
    rw [List.getElem?_map, hc, Option.map_some'] at hitem
    have hfi := Option.some.inj hitem
    cases hv : vendorMapGet vs c.MPN with
    | some v0 =>
      rw [← hfi, hv]
      have hmem : v0 ∈ vs := by
        have := List.mem_of_find?_eq_some hv
        rwa [List.mem_reverse] at this
      have hmpn : v0.MPN = c.MPN := by
        have := List.find?_some hv
        simpa using this
      refine ⟨rfl, rfl, ?_, ?_⟩
      · intro v hsome
        have hv0 : v0 = v := Option.some.inj hsome
        subst hv0
        exact ⟨rfl, rfl, hmem, hmpn⟩
      · intro hnone
        exact absurd hnone (by simp)
    | none =>
      rw [← hfi, hv]
      refine ⟨rfl, rfl, ?_, ?_⟩
      · intro v hsome
        exact absurd hsome (by simp)
      · intro _
        refine ⟨rfl, rfl, ?_⟩
        intro v hvmem heq
        unfold vendorMapGet at hv
        rw [List.find?_eq_none] at hv
        exact hv v (by rwa [List.mem_reverse]) (by simp [heq])
  · intro item hitem v hsome
    unfold matchItems at hitem
    rw [List.mem_map] at hitem
    obtain ⟨c, hcmem, hfc⟩ := hitem
    refine ⟨c, hcmem, ?_⟩
    cases hv : vendorMapGet vs c.MPN with
    | some v0 =>
      rw [← hfc] at hsome
      simp only [hv] at hsome
      have hv0 : v0 = v := Option.some.inj hsome
      subst hv0
      have hm := List.find?_some hv
      have : v0.MPN = c.MPN := by simpa using hm
      exact this.symm
    | none =>
      rw [← hfc] at hsome
      simp only [hv] at hsome
      exact absurd hsome (by simp)

/-- Witness for C3_match_left_join on a one-row match. -/
theorem C3_match_left_join_witness :
    ({ MPN := "X1",
       companyRow := { MPN := "X1", Item := "Widget", Description := none,
                       PreferredVendor := none, Cost := 8, Price := 12, UM := none,
                       extra := [] },
       vendorRow := some { MPN := "X1", Cost := 10, UnitDivider := 1, UnitCost := 10 },
       isOrphaned := false,
       costDifference := some ((8 : ℚ) - 10) } : MatchedItem).isOrphaned = false := by
  have h := (C3_match_left_join
      [{ MPN := "X1", Item := "Widget", Description := none, PreferredVendor := none,
         Cost := 8, Price := 12, UM := none, extra := [] }]
      [{ MPN := "X1", Cost := 10, UnitDivider := 1, UnitCost := 10 }]).2.1 0
    { MPN := "X1",
      companyRow := { MPN := "X1", Item := "Widget", Description := none,
                      PreferredVendor := none, Cost := 8, Price := 12, UM := none,
                      extra := [] },
      vendorRow := some { MPN := "X1", Cost := 10, UnitDivider := 1, UnitCost := 10 },
      isOrphaned := false,
      costDifference := some ((8 : ℚ) - 10) }
    { MPN := "X1", Item := "Widget", Description := none, PreferredVendor := none,
      Cost := 8, Price := 12, UM := none, extra := [] }
    (by with_unfolding_all rfl) rfl
  exact (h.2.2.1 { MPN := "X1", Cost := 10, UnitDivider := 1, UnitCost := 10 }
    (by with_unfolding_all rfl)).1

/-- Inversion for a successful `normalizeVendorRow`: the output is the record built
from the validated row, and the final schema's nonnegativity/positivity checks hold. -/
theorem normalizeVendorRow_ok (v : VendorRowValidated) (out : VendorRow)
    (h : normalizeVendorRow v = .ok out) :
    out = { MPN := cellToString v.MPN, Cost := v.Cost,
            UnitDivider := v.UnitDivider.getD 1,
            UnitCost := v.Cost / v.UnitDivider.getD 1 }
    ∧ 0 ≤ v.Cost ∧ 0 < v.UnitDivider.getD 1 := by
  unfold normalizeVendorRow at h
  dsimp only at h
  split at h
  case isTrue hcond =>
    have hout := Except.ok.inj h
    have hcost : ¬(v.Cost < 0) := by
      intro hneg
      simp [vendorFinalSchemaIssues, hneg] at hcond
    have hud : ¬(v.UnitDivider.getD 1 ≤ 0) := by
      intro hneg
      simp [vendorFinalSchemaIssues, hneg] at hcond
    exact ⟨hout.symm, le_of_not_lt hcost, lt_of_not_le hud⟩
  case isFalse => exact absurd h (by simp)

/-- Inversion for a successful `validateRawVendorRow`: the validated fields come from
the raw extraction unchanged. -/
theorem validateRawVendorRow_ok (raw : VendorRawExtract) (v : VendorRowValidated)
    (h : validateRawVendorRow raw = .ok v) :
    v.MPN = raw.MPN ∧ raw.Cost = some v.Cost ∧ v.UnitDivider = raw.UnitDivider := by
  unfold validateRawVendorRow at h
  split at h
  · exact absurd h (by simp)
  · split at h
    · exact absurd h (by simp)
    case _ c hc =>
      dsimp only at h
      split at h
      · have hv := Except.ok.inj h
        rw [← hv]
        exact ⟨rfl, hc, rfl⟩
      · exact absurd h (by simp)

/-- Inversion for a successful `extractRawVendorRow`: the raw Unit Divider is the
`parseNumber` result of the mapped cell when mapped and in range, of `null`
otherwise. -/
theorem extractRawVendorRow_ok_divider (row : List Cell)
    (m : List (String × ColumnMapping)) (raw : VendorRawExtract)
    (h : extractRawVendorRow row (some m) = .ok raw) :
    raw.UnitDivider = parseNumber
      (match recordGet m "Unit Divider" with
       | some udCol =>
         if 0 ≤ udCol.index ∧ udCol.index < (row.length : Int)
         then cellAt row udCol.index else Cell.null
       | none => Cell.null) := by
  unfold extractRawVendorRow at h
  split at h
  · exact absurd h (by simp)
  case _ m2 heq =>
    have hm : m2 = m := by injection heq with hmm; exact hmm.symm
    subst hm
    split at h
    · exact absurd h (by simp)
    · split at h
      · exact absurd h (by simp)
      · split at h
        · exact absurd h (by simp)
        · dsimp only at h
          split at h
          · exact absurd h (by simp)
          · have hraw := Except.ok.inj h
            rw [← hraw]

/-- Every normalized output of the batch loop is the successful parse of some input
row. -/
theorem processRowsGo_mem_ok {ε α : Type} (parse : List Cell → Except ε α) :
    ∀ (rows : List (List Cell)) (i : Nat) (a : α),
      a ∈ (processRowsGo parse i rows).1 → ∃ row ∈ rows, parse row = .ok a := by
  intro rows
  induction rows with
  | nil => intro i a ha; simp [processRowsGo] at ha
  | cons r rest ih =>
    intro i a ha
    simp only [processRowsGo] at ha
    cases hp : parse r with
    | ok b =>
      rw [hp] at ha
      simp only [List.mem_cons] at ha
      rcases ha with ha | ha
      · exact ⟨r, List.mem_cons_self r rest, by rw [hp, ha]⟩
      · obtain ⟨row, hrow, hok⟩ := ih (i + 1) a ha
        exact ⟨row, List.mem_cons_of_mem r hrow, hok⟩
    | error e =>
      rw [hp] at ha
      obtain ⟨row, hrow, hok⟩ := ih (i + 1) a ha
      exact ⟨row, List.mem_cons_of_mem r hrow, hok⟩

/-- Claim C5: every vendor row produced by the pipeline satisfies
`UnitCost = Cost / UnitDivider` with `Cost ≥ 0` and `UnitDivider > 0`, where
`UnitDivider` equals the parsed Unit Divider cell when one was mapped, in range and
parseable, and defaults to `1` otherwise; the invariant also holds for every row in
the `processVendorRows` output. -/
theorem C5_unit_cost_invariant :
    (∀ (row : List Cell) (mapping : MappingConfig) (out : VendorRow),
      parseVendorRow row mapping = .ok out →
      out.UnitCost = out.Cost / out.UnitDivider
      ∧ 0 ≤ out.Cost ∧ 0 < out.UnitDivider
      ∧ (∀ raw : VendorRawExtract, extractRawVendorRow row mapping = .ok raw →
          (∀ d : ℚ, raw.UnitDivider = some d → out.UnitDivider = d)
          ∧ (raw.UnitDivider = none → out.UnitDivider = 1))
      ∧ (∀ (m : List (String × ColumnMapping)) (udCol : ColumnMapping),
          mapping = some m → recordGet m "Unit Divider" = some udCol →
          0 ≤ udCol.index → udCol.index < (row.length : Int) →
          ∀ d : ℚ, parseNumber (cellAt row udCol.index) = some d → out.UnitDivider = d)
      ∧ (∀ m : List (String × ColumnMapping),
          mapping = some m → recordGet m "Unit Divider" = none → out.UnitDivider = 1))
    ∧ (∀ (rows : List (List Cell)) (mapping : MappingConfig) (out : VendorRow),
        out ∈ (processVendorRows rows mapping).1 →
        out.UnitCost = out.Cost / out.UnitDivider ∧ 0 ≤ out.Cost ∧ 0 < out.UnitDivider) := by
  have main : ∀ (row : List Cell) (mapping : MappingConfig) (out : VendorRow),
      parseVendorRow row mapping = .ok out →
      out.UnitCost = out.Cost / out.UnitDivider
      ∧ 0 ≤ out.Cost ∧ 0 < out.UnitDivider
      ∧ (∀ raw : VendorRawExtract, extractRawVendorRow row mapping = .ok raw →
          (∀ d : ℚ, raw.UnitDivider = some d → out.UnitDivider = d)
          ∧ (raw.UnitDivider = none → out.UnitDivider = 1))
      ∧ (∀ (m : List (String × ColumnMapping)) (udCol : ColumnMapping),
          mapping = some m → recordGet m "Unit Divider" = some udCol →
          0 ≤ udCol.index → udCol.index < (row.length : Int) →
          ∀ d : ℚ, parseNumber (cellAt row udCol.index) = some d → out.UnitDivider = d)
      ∧ (∀ m : List (String × ColumnMapping),
          mapping = some m → recordGet m "Unit Divider" = none → out.UnitDivider = 1) := by
    intro row mapping out h
    unfold parseVendorRow at h
    rw [except_bind_ok] at h
    obtain ⟨raw, hraw, h⟩ := h
    rw [except_bind_ok] at h
    obtain ⟨v, hval, hnorm⟩ := h
    obtain ⟨hout, hcost, hud⟩ := normalizeVendorRow_ok v out hnorm
    obtain ⟨_, _, hvud⟩ := validateRawVendorRow_ok raw v hval
    have houtud : out.UnitDivider = raw.UnitDivider.getD 1 := by
      rw [hout, ← hvud]
    refine ⟨by rw [hout], by rw [hout]; exact hcost, by rw [hout]; exact hud, ?_, ?_, ?_⟩
    · intro raw2 hraw2
      have hr : raw2 = raw := by
        have h12 := hraw2.symm.trans hraw
        exact Except.ok.inj h12
      subst hr
      constructor
      · intro d hd
        rw [houtud, hd, Option.getD_some]
      · intro hd
        rw [houtud, hd, Option.getD_none]
    · intro m udCol hmap hud2 hge hlt d hd
      subst hmap
      have hdiv := extractRawVendorRow_ok_divider row m raw hraw
      rw [hud2] at hdiv
      dsimp only at hdiv
      rw [if_pos ⟨hge, hlt⟩] at hdiv
      rw [houtud, hdiv, hd, Option.getD_some]
    · intro m hmap hud2
      subst hmap
      have hdiv := extractRawVendorRow_ok_divider row m raw hraw
      rw [hud2] at hdiv
      dsimp only at hdiv
      rw [houtud, hdiv]
      rfl
  refine ⟨main, ?_⟩
  intro rows mapping out hmem
  cases mapping with
  | none => simp [processVendorRows] at hmem
  | some m =>
    obtain ⟨row, _, hok⟩ :=
      processRowsGo_mem_ok (fun r => parseVendorRow r (some m)) rows 0 out
        (by simpa [processVendorRows] using hmem)
    have := main row (some m) out hok
    exact ⟨this.1, this.2.1, this.2.2.1⟩

/-- Witness for C5_unit_cost_invariant at a concrete parsed row. -/
theorem C5_unit_cost_invariant_witness :
    ({ MPN := "X1", Cost := 10, UnitDivider := 2, UnitCost := 5 } : VendorRow).UnitCost
      = ({ MPN := "X1", Cost := 10, UnitDivider := 2, UnitCost := 5 } : VendorRow).Cost
        / ({ MPN := "X1", Cost := 10, UnitDivider := 2, UnitCost := 5 } : VendorRow).UnitDivider := by
  have h := C5_unit_cost_invariant.1
    [Cell.str "X1", Cell.str "Widget", Cell.str "$10.00", Cell.num 2]
    (some [("MPN", { name := "Part", index := 0 }),
           ("Cost", { name := "Cost", index := 2 }),
           ("Unit Divider", { name := "UD", index := 3 })])
    { MPN := "X1", Cost := 10, UnitDivider := 2, UnitCost := 5 }
    (by with_unfolding_all rfl)
  exact h.1

/-- The error record the batch loop produces for one enumerated row, `none` when the
row parses. -/
def errEntry {ε α : Type} (parse : List Cell → Except ε α) (p : Nat × List Cell) :
    Option (RowError ε) :=
  match parse p.2 with
  | .ok _ => none
  | .error e => some { row := p.1 + 1, error := e }

/-- The batch loop computes exactly the order-preserving filter of successes and the
order-preserving filter of failures over the index-enumerated input. -/
theorem processRowsGo_eq {ε α : Type} (parse : List Cell → Except ε α) :
    ∀ (rows : List (List Cell)) (i : Nat),
      (processRowsGo parse i rows).1
        = (List.enumFrom i rows).filterMap (fun p => (parse p.2).toOption)
      ∧ (processRowsGo parse i rows).2
        = (List.enumFrom i rows).filterMap (errEntry parse) := by
  intro rows
  induction rows with
  | nil => intro i; exact ⟨rfl, rfl⟩
  | cons r rest ih =>
    intro i
    have h1 := (ih (i + 1)).1
    have h2 := (ih (i + 1)).2
    simp only [processRowsGo, List.enumFrom, List.filterMap_cons]
    cases hp : parse r with
    | ok a => simp [errEntry, hp, Except.toOption, h1, h2]
    | error e => simp [errEntry, hp, Except.toOption, h1, h2]

/-- Successes and failures of the batch loop partition the input rows. -/
theorem processRowsGo_length {ε α : Type} (parse : List Cell → Except ε α) :
    ∀ (rows : List (List Cell)) (i : Nat),
      (processRowsGo parse i rows).1.length + (processRowsGo parse i rows).2.length
        = rows.length := by
  intro rows
  induction rows with
  | nil => intro i; rfl
  | cons r rest ih =>
    intro i
    have h := ih (i + 1)
    simp only [processRowsGo]
    cases hp : parse r with
    | ok a => simp only [List.length_cons]; omega
    | error e => simp only [List.length_cons]; omega

/-- The batch loop records exactly one error per failing row. -/
theorem processRowsGo_errors_length {ε α : Type} (parse : List Cell → Except ε α) :
    ∀ (rows : List (List Cell)) (i : Nat),
      (processRowsGo parse i rows).2.length
        = rows.countP (fun row => ((parse row).toOption).isNone) := by
  intro rows
  induction rows with
  | nil => intro i; rfl
  | cons r rest ih =>
    intro i
    have h := ih (i + 1)
    simp only [processRowsGo, List.countP_cons]
    cases hp : parse r with
    | ok a => simp [hp, Except.toOption, h]
    | error e => simp [hp, Except.toOption, h]

/-- Every recorded error carries the 1-based position of a row of the input whose
parse fails with exactly that error. -/
theorem processRowsGo_errors_mem {ε α : Type} (parse : List Cell → Except ε α) :
    ∀ (rows : List (List Cell)) (i : Nat),
      ∀ e ∈ (processRowsGo parse i rows).2,
        i + 1 ≤ e.row ∧ e.row ≤ i + rows.length
        ∧ ∃ row, rows[e.row - 1 - i]? = some row ∧ parse row = .error e.error := by
  intro rows
  induction rows with
  | nil => intro i e he; simp [processRowsGo] at he
  | cons r rest ih =>
    intro i e he
    simp only [processRowsGo] at he
    cases hp : parse r with
    | ok a =>
      rw [hp] at he
      obtain ⟨h1, h2, row, hrow, herr⟩ := ih (i + 1) e he
      refine ⟨by omega, by simp only [List.length_cons]; omega, row, ?_, herr⟩
      have hidx : e.row - 1 - i = (e.row - 1 - (i + 1)) + 1 := by omega
      rw [hidx, List.getElem?_cons_succ]
      exact hrow
    | error err =>
      rw [hp] at he
      simp only [List.mem_cons] at he
      rcases he with he | he
      · subst he
        refine ⟨by dsimp only; omega, by dsimp only [List.length_cons]; omega, r, ?_, hp⟩
        simp
      · obtain ⟨h1, h2, row, hrow, herr⟩ := ih (i + 1) e he
        refine ⟨by omega, by simp only [List.length_cons]; omega, row, ?_, herr⟩
        have hidx : e.row - 1 - i = (e.row - 1 - (i + 1)) + 1 := by omega
        rw [hidx, List.getElem?_cons_succ]
        exact hrow

/-- Claim C2: with a non-empty config, `processVendorRows` and `processCompanyRows`
never abort on an individual failure: the normalized output is the in-order list of
the successful parses, the error list is the in-order list of the failures with their
1-based input positions, `errors.length` is the number of failing rows and
`normalized.length = n - errors.length`. -/
theorem C2_batch_error_aggregation :
    ∀ (rows : List (List Cell)) (m : List (String × ColumnMapping)) (headers : List String),
      headers ≠ [] →
      ((processVendorRows rows (some m)).1
          = (List.enumFrom 0 rows).filterMap
              (fun p => (parseVendorRow p.2 (some m)).toOption)
        ∧ (processVendorRows rows (some m)).2
          = (List.enumFrom 0 rows).filterMap
              (errEntry (fun row => parseVendorRow row (some m)))
        ∧ (processVendorRows rows (some m)).2.length
          = rows.countP (fun row => ((parseVendorRow row (some m)).toOption).isNone)
        ∧ (processVendorRows rows (some m)).1.length
          = rows.length - (processVendorRows rows (some m)).2.length
        ∧ ∀ e ∈ (processVendorRows rows (some m)).2,
            1 ≤ e.row ∧ e.row ≤ rows.length
            ∧ ∃ row, rows[e.row - 1]? = some row
                ∧ parseVendorRow row (some m) = .error e.error)
      ∧ ((processCompanyRows rows headers).1
          = (List.enumFrom 0 rows).filterMap
              (fun p => (parseCompanyRow p.2 headers).toOption)
        ∧ (processCompanyRows rows headers).2
          = (List.enumFrom 0 rows).filterMap
              (errEntry (fun row => parseCompanyRow row headers))
        ∧ (processCompanyRows rows headers).2.length
          = rows.countP (fun row => ((parseCompanyRow row headers).toOption).isNone)
        ∧ (processCompanyRows rows headers).1.length
          = rows.length - (processCompanyRows rows headers).2.length
        ∧ ∀ e ∈ (processCompanyRows rows headers).2,
            1 ≤ e.row ∧ e.row ≤ rows.length
            ∧ ∃ row, rows[e.row - 1]? = some row
                ∧ parseCompanyRow row headers = .error e.error) := by
  intro rows m headers hne
  have hv : processVendorRows rows (some m)
      = processRowsGo (fun row => parseVendorRow row (some m)) 0 rows := rfl
  have hc : processCompanyRows rows headers
      = processRowsGo (fun row => parseCompanyRow row headers) 0 rows := by
    unfold processCompanyRows
    rw [if_neg hne]
  constructor
  · rw [hv]
    refine ⟨(processRowsGo_eq _ rows 0).1, (processRowsGo_eq _ rows 0).2,
      processRowsGo_errors_length _ rows 0, ?_, ?_⟩
    · have hl := processRowsGo_length (fun row => parseVendorRow row (some m)) rows 0
      omega
    · intro e he
      obtain ⟨h1, h2, row, hrow, herr⟩ := processRowsGo_errors_mem _ rows 0 e he
      exact ⟨h1, by omega, row, by simpa using hrow, herr⟩
  · rw [hc]
    refine ⟨(processRowsGo_eq _ rows 0).1, (processRowsGo_eq _ rows 0).2,
      processRowsGo_errors_length _ rows 0, ?_, ?_⟩
    · have hl := processRowsGo_length (fun row => parseCompanyRow row headers) rows 0
      omega
    · intro e he
      obtain ⟨h1, h2, row, hrow, herr⟩ := processRowsGo_errors_mem _ rows 0 e he
      exact ⟨h1, by omega, row, by simpa using hrow, herr⟩

/-- Witness for C2_batch_error_aggregation: two vendor rows of which the second fails
(missing MPN). -/
theorem C2_batch_error_aggregation_witness :
    (processVendorRows
        [[Cell.str "A", Cell.str "W", Cell.num 1, Cell.num 2],
         [Cell.null, Cell.str "W", Cell.num 1, Cell.num 2]]
        (some [("MPN", { name := "MPN", index := 0 }),
               ("Cost", { name := "Cost", index := 2 })])).1.length
      = ([[Cell.str "A", Cell.str "W", Cell.num 1, Cell.num 2],
          [Cell.null, Cell.str "W", Cell.num 1, Cell.num 2]] : List (List Cell)).length
        - (processVendorRows
            [[Cell.str "A", Cell.str "W", Cell.num 1, Cell.num 2],
             [Cell.null, Cell.str "W", Cell.num 1, Cell.num 2]]
            (some [("MPN", { name := "MPN", index := 0 }),
                   ("Cost", { name := "Cost", index := 2 })])).2.length :=
  ((C2_batch_error_aggregation
      [[Cell.str "A", Cell.str "W", Cell.num 1, Cell.num 2],
       [Cell.null, Cell.str "W", Cell.num 1, Cell.num 2]]
      [("MPN", { name := "MPN", index := 0 }), ("Cost", { name := "Cost", index := 2 })]
      ["MPN", "Item", "Cost", "Price"] (by decide)).1).2.2.2.1

/-- Inversion for a successful `extractRawCompanyRow`: the raw object is the
header-value zip. -/
theorem extractRawCompanyRow_ok (row : List Cell) (headers : List String)
    (raw : List (String × Cell)) (h : extractRawCompanyRow row headers = .ok raw) :
    raw = headers.zip row := by
  unfold extractRawCompanyRow at h
  split at h
  · exact absurd h (by simp)
  · split at h
    · exact absurd h (by simp)
    · exact (Except.ok.inj h).symm

/-- Inversion for a successful `validateRawCompanyRow`: where each validated field
comes from. -/
theorem validateRawCompanyRow_ok (raw : List (String × Cell)) (v : CompanyRowValidated)
    (h : validateRawCompanyRow raw = .ok v) :
    v.MPN = objectGet raw "MPN"
    ∧ v.Item = jsTrim (cellToString (objectGet raw "Item"))
    ∧ v.Description = truthyCell (objectGet raw "Description")
    ∧ v.PreferredVendor = truthyCell (objectGet raw "PreferredVendor")
    ∧ v.UM = truthyCell (objectGet raw "U/M")
    ∧ parseNumber (objectGet raw "Cost") = some v.Cost
    ∧ parseNumber (objectGet raw "Price") = some v.Price := by
  unfold validateRawCompanyRow at h
  split at h
  · exact absurd h (by simp)
  · split at h
    · exact absurd h (by simp)
    · split at h
      · exact absurd h (by simp)
      case _ cost hcost =>
        split at h
        · exact absurd h (by simp)
        · split at h
          · exact absurd h (by simp)
          case _ price hprice =>
            split at h
            · exact absurd h (by simp)
            · dsimp only at h
              split at h
              · have hv := Except.ok.inj h
                rw [← hv]
                exact ⟨rfl, rfl, rfl, rfl, rfl, hcost, hprice⟩
              · exact absurd h (by simp)

/-- Inversion for a successful `normalizeCompanyRow`: where each output field comes
from. -/
theorem normalizeCompanyRow_ok (v : CompanyRowValidated) (out : CompanyRow)
    (h : normalizeCompanyRow v = .ok out) :
    out.MPN = cellToString v.MPN
    ∧ out.Item = v.Item
    ∧ out.Description = optionalString v.Description
    ∧ out.PreferredVendor = optionalString v.PreferredVendor
    ∧ out.UM = optionalString v.UM
    ∧ out.Cost = v.Cost ∧ out.Price = v.Price ∧ out.extra = [] := by
  unfold normalizeCompanyRow at h
  dsimp only at h
  split at h
  · have hv := Except.ok.inj h
    rw [← hv]
    exact ⟨rfl, rfl, rfl, rfl, rfl, rfl, rfl, rfl⟩
  · exact absurd h (by simp)

/-- Claim C6, counterexample.  The claim says the normalized MPN equals the raw cell
coerced to a string **and trimmed**.  `normalizeCompanyRow` runs `String(validated.MPN)`
without `.trim()`: the accepted row with MPN cell `" A "` keeps MPN `" A "`, which
differs from its trim `"A"`. -/
theorem C6_counterexample :
    parseCompanyRow [Cell.str " A ", Cell.str "W", Cell.num 1, Cell.num 2]
        ["MPN", "Item", "Cost", "Price"]
      = .ok { MPN := " A ", Item := "W", Description := none, PreferredVendor := none,
              Cost := 1, Price := 2, UM := none, extra := [] }
    ∧ jsTrim " A " = "A"
    ∧ (" A " : String) ≠ "A" := by
  refine ⟨?_, ?_, ?_⟩
  · with_unfolding_all rfl
  · with_unfolding_all rfl
  · decide

/-- Claim C6, amended.  For every company row that `parseCompanyRow` accepts, the
normalized `Item` equals the raw cell coerced to a string (JavaScript `String()`,
modelled by `cellToString`) and trimmed by JavaScript `.trim()` (`jsTrim`, the full
`\s` class), while `MPN` equals the raw cell coerced to a string **untrimmed**; the
optional fields `Description`, `PreferredVendor` and `U/M` are `undefined` (never
`null`) when the raw cell is empty or missing. -/
theorem C6_amended :
    ∀ (row : List Cell) (headers : List String) (out : CompanyRow),
      parseCompanyRow row headers = .ok out →
      out.MPN = cellToString (objectGet (headers.zip row) "MPN")
      ∧ out.Item = jsTrim (cellToString (objectGet (headers.zip row) "Item"))
      ∧ ((objectGet (headers.zip row) "Description" = Cell.str ""
            ∨ objectGet (headers.zip row) "Description" = Cell.null
            ∨ objectGet (headers.zip row) "Description" = Cell.undef)
          → out.Description = none)
      ∧ ((objectGet (headers.zip row) "PreferredVendor" = Cell.str ""
            ∨ objectGet (headers.zip row) "PreferredVendor" = Cell.null
            ∨ objectGet (headers.zip row) "PreferredVendor" = Cell.undef)
          → out.PreferredVendor = none)
      ∧ ((objectGet (headers.zip row) "U/M" = Cell.str ""
            ∨ objectGet (headers.zip row) "U/M" = Cell.null
            ∨ objectGet (headers.zip row) "U/M" = Cell.undef)
          → out.UM = none) := by
  intro row headers out h
  unfold parseCompanyRow at h
  rw [except_bind_ok] at h
  obtain ⟨raw, hraw, h⟩ := h
  rw [except_bind_ok] at h
  obtain ⟨v, hval, hnorm⟩ := h
  have hzip := extractRawCompanyRow_ok row headers raw hraw
  subst hzip
  obtain ⟨hvMPN, hvItem, hvDesc, hvPV, hvUM, _, _⟩ := validateRawCompanyRow_ok _ v hval
  obtain ⟨hoMPN, hoItem, hoDesc, hoPV, hoUM, _, _, _⟩ := normalizeCompanyRow_ok v out hnorm
  have hfalsy : ∀ c : Cell,
      (c = Cell.str "" ∨ c = Cell.null ∨ c = Cell.undef) → truthyCell c = none := by
    intro c hc
    rcases hc with hc | hc | hc <;> subst hc <;> rfl
  refine ⟨by rw [hoMPN, hvMPN], by rw [hoItem, hvItem], ?_, ?_, ?_⟩
  · intro hc
    rw [hoDesc, hvDesc, hfalsy _ hc]
    rfl
  · intro hc
    rw [hoPV, hvPV, hfalsy _ hc]
    rfl
  · intro hc
    rw [hoUM, hvUM, hfalsy _ hc]
    rfl

/-- Witness for C6_amended at a concrete accepted row. -/
theorem C6_amended_witness :
    ({ MPN := " A ", Item := "W", Description := none, PreferredVendor := none,
       Cost := 1, Price := 2, UM := none, extra := [] } : CompanyRow).Item
      = jsTrim (cellToString (objectGet
          (["MPN", "Item", "Cost", "Price"].zip
            [Cell.str " A ", Cell.str "W", Cell.num 1, Cell.num 2]) "Item")) := by
  have h := C6_amended [Cell.str " A ", Cell.str "W", Cell.num 1, Cell.num 2]
    ["MPN", "Item", "Cost", "Price"]
    { MPN := " A ", Item := "W", Description := none, PreferredVendor := none,
      Cost := 1, Price := 2, UM := none, extra := [] }
    (by with_unfolding_all rfl)
  exact h.2.1

/-- Claim C9, counterexample.  The claim says a row violating several constraints is
rejected with an error reporting **only the first** violation in declared order.  A
vendor raw row with `Cost = -5` and `UnitDivider = -2` passes the explicit checks and
is rejected by the raw schema with a single error whose message aggregates **both**
the negative-Cost and the non-positive-UnitDivider violations. -/
theorem C9_counterexample :
    validateRawVendorRow { MPN := Cell.str "A", Cost := some (-5), UnitDivider := some (-2) }
      = .error (.rawSchemaIssues ["Cost", "UnitDivider"])
    ∧ (VendorErr.rawSchemaIssues ["Cost", "UnitDivider"]
        ≠ VendorErr.rawSchemaIssues ["Cost"]) := by
  constructor
  · with_unfolding_all rfl
  · decide

/-- Claim C9, amended.  Validation rejects a bad row with a single error and is
deterministic; the explicit pre-schema checks short-circuit in declared order (vendor:
missing MPN then unparsable Cost; company: missing MPN, blank Item, unparsable Cost,
negative Cost, unparsable Price, negative Price), reporting only the first violated
one; but violations detected by the raw zod schema (vendor: negative Cost,
non-positive UnitDivider) are aggregated into that one error in schema field order
rather than first-only. -/
theorem C9_amended :
    (∀ raw : VendorRawExtract,
      (isMissingCell raw.MPN = true →
        validateRawVendorRow raw = .error .mpnMissing)
      ∧ (isMissingCell raw.MPN = false → raw.Cost = none →
        validateRawVendorRow raw = .error .costUnparsable)
      ∧ (∀ c d : ℚ, isMissingCell raw.MPN = false → raw.MPN ≠ Cell.nan →
          raw.Cost = some c → c < 0 → raw.UnitDivider = some d → d ≤ 0 →
          validateRawVendorRow raw = .error (.rawSchemaIssues ["Cost", "UnitDivider"])))
    ∧ (∀ raw : List (String × Cell),
      (isMissingCell (objectGet raw "MPN") = true →
        validateRawCompanyRow raw = .error .mpnMissing)
      ∧ (isMissingCell (objectGet raw "MPN") = false →
          isBlankItem (objectGet raw "Item") = true →
          validateRawCompanyRow raw = .error .itemMissing)
      ∧ (isMissingCell (objectGet raw "MPN") = false →
          isBlankItem (objectGet raw "Item") = false →
          parseNumber (objectGet raw "Cost") = none →
          validateRawCompanyRow raw = .error .costUnparsable)
      ∧ (∀ c : ℚ, isMissingCell (objectGet raw "MPN") = false →
          isBlankItem (objectGet raw "Item") = false →
          parseNumber (objectGet raw "Cost") = some c → c < 0 →
          validateRawCompanyRow raw = .error .costNegative)
      ∧ (∀ c : ℚ, isMissingCell (objectGet raw "MPN") = false →
          isBlankItem (objectGet raw "Item") = false →
          parseNumber (objectGet raw "Cost") = some c → ¬(c < 0) →
          parseNumber (objectGet raw "Price") = none →
          validateRawCompanyRow raw = .error .priceUnparsable)
      ∧ (∀ c p : ℚ, isMissingCell (objectGet raw "MPN") = false →
          isBlankItem (objectGet raw "Item") = false →
          parseNumber (objectGet raw "Cost") = some c → ¬(c < 0) →
          parseNumber (objectGet raw "Price") = some p → p < 0 →
          validateRawCompanyRow raw = .error .priceNegative)) := by
  constructor
  · intro raw
    refine ⟨?_, ?_, ?_⟩
    · intro hmiss
      simp [validateRawVendorRow, hmiss]
    · intro hmiss hcost
      simp [validateRawVendorRow, hmiss, hcost]
    · intro c d hmiss hnan hc hlt hd hdle
      simp [validateRawVendorRow, vendorRawSchemaIssues, hmiss, hnan, hc, hlt, hd, hdle]
  · intro raw
    refine ⟨?_, ?_, ?_, ?_, ?_, ?_⟩
    · intro hmiss
      simp [validateRawCompanyRow, hmiss]
    · intro hmiss hitem
      simp [validateRawCompanyRow, hmiss, hitem]
    · intro hmiss hitem hcost
      simp [validateRawCompanyRow, hmiss, hitem, hcost]
    · intro c hmiss hitem hcost hneg
      simp [validateRawCompanyRow, hmiss, hitem, hcost, hneg]
    · intro c hmiss hitem hcost hnn hprice
      simp [validateRawCompanyRow, hmiss, hitem, hcost, hnn, hprice]
    · intro c p hmiss hitem hcost hnn hprice hpneg
      simp [validateRawCompanyRow, hmiss, hitem, hcost, hnn, hprice, hpneg]

/-- Witness for C9_amended: the vendor aggregation conjunct at a concrete raw row. -/
theorem C9_amended_witness :
    validateRawVendorRow { MPN := Cell.str "B", Cost := some (-3), UnitDivider := some 0 }
      = .error (.rawSchemaIssues ["Cost", "UnitDivider"]) :=
  (C9_amended.1 { MPN := Cell.str "B", Cost := some (-3), UnitDivider := some 0 }).2.2
    (-3) 0 rfl (by decide) rfl (by norm_num) rfl (by norm_num)
